import Mathlib

/-!
Shallow embedding of the `pkg/workflow` package of the openagent repository
(the data model in the package's type declarations and the sequential engine
`DefaultEngine` with its methods `RegisterAction`, `Execute` and `ExecuteStep`).

Modelling conventions:
* Go `map[string]T` values are association lists `List (String × T)`;
  `goMapGet` and `goMapSet` model Go map indexing and assignment.
* Go `interface{}` values occurring in step inputs and outputs are the tagged
  union `GoValue`.
* Go `error` values are modelled by their message string (`GoErr`); a Go `nil`
  error is `Option.none`.
* `context.Context` carries no observable data for these functions: the
  deadline installed by `context.WithTimeout` only affects the wall-clock
  behaviour of action handlers, which is outside the model, so the context
  parameter is dropped.  The wall-clock fields `StartTime`, `EndTime` and
  `Duration` of `StepResult` and `WorkflowResult` are likewise dropped.
* An action handler in Go is a closure and may carry mutable state.  The
  embedding threads an explicit invocation trace (`Trace`): every handler
  call is recorded, and a handler receives the number of its own prior
  invocations, which is the only closure state the verified properties need.
  A stateless Go handler is modelled by a function that ignores that counter.
-/

set_option maxRecDepth 4000

/-- Tagged union modelling the Go `interface{}` values stored in the
`map[string]any` inputs and outputs of workflow steps. -/
inductive GoValue where
  | vStr : String → GoValue
  | vInt : Int → GoValue
  | vBool : Bool → GoValue
  | vNull : GoValue
deriving DecidableEq, Repr

/-- A Go `map[string]any`, as an association list. -/
abbrev GoMap := List (String × GoValue)

/-- A Go `error`, modelled by its message. -/
abbrev GoErr := String

/-- Go map read `m[k]`: the value bound to `k`, if any. -/
def goMapGet {α : Type} (k : String) : List (String × α) → Option α
  | [] => none
  | p :: rest => if p.1 = k then some p.2 else goMapGet k rest

/-- Go map write `m[k] = v`: replaces the binding of `k` or adds one. -/
def goMapSet {α : Type} (k : String) (v : α) : List (String × α) → List (String × α)
  | [] => [(k, v)]
  | p :: rest => if p.1 = k then (k, v) :: rest else p :: goMapSet k v rest

/-- Go loop `for k, v := range l { m[k] = v }`: writes every binding of `l`
into `m`. -/
def goMapSetAll {α : Type} (m : List (String × α)) (l : List (String × α)) :
    List (String × α) :=
  l.foldl (fun acc p => goMapSet p.1 p.2 acc) m

/-- Numeric value of a list of decimal digit characters (Go `leadingInt`). -/
def natOfDigits (l : List Char) : Nat :=
  l.foldl (fun n c => n * 10 + (c.toNat - 48)) 0

/-- Quoting of a string in Go `time` package error messages
(`strconv.Quote`; escaping of special characters inside the string is not
modelled, no claim examines a timeout string containing them). -/
def goQuote (s : String) : String := "\"" ++ s ++ "\""

/-- Nanoseconds per unit, Go `time.unitMap`. -/
def unitScale : String → Option Nat
  | "ns" => some 1
  | "us" => some 1000
  | "µs" => some 1000
  | "μs" => some 1000
  | "ms" => some 1000000
  | "s" => some 1000000000
  | "m" => some 60000000000
  | "h" => some 3600000000000
  | _ => none

/-- Character that continues a unit token in Go `time.ParseDuration`:
anything but a digit or a dot. -/
def unitChar (c : Char) : Bool := !(c = '.' || c.isDigit)

/-- Unit suffix of a segment in Go `time.ParseDuration`: reads the unit
token from the front of `s2`, looks it up in `unitMap` and combines it with
the integer part `v` and the fractional part `f / scale` already read.
Returns the segment value in nanoseconds and the unconsumed rest (with its
length bound, used for termination of the parse loop). -/
def finishUnit (orig : String) (v f scale : Nat) (s2 : List Char) :
    Except String (Nat × {rest : List Char // rest.length ≤ s2.length}) :=
  let unitCs := s2.takeWhile unitChar
  if unitCs.isEmpty then
    .error ("time: missing unit in duration " ++ goQuote orig)
  else
    match unitScale (String.mk unitCs) with
    | none => .error ("time: unknown unit " ++ goQuote (String.mk unitCs) ++
        " in duration " ++ goQuote orig)
    | some u =>
      .ok (v * u + f * u / scale,
        ⟨s2.dropWhile unitChar, (List.dropWhile_sublist unitChar).length_le⟩)

/-- Fraction-and-unit suffix of a segment in Go `time.ParseDuration`: after
the leading integer `v` (with `pre` recording whether any integer digits were
present), consumes an optional `.digits` fraction and then the unit.  The
`!pre && !post` check of the Go loop body is the error case here. -/
def parseTail (orig : String) (v : Nat) (pre : Bool) (s1 : List Char) :
    Except String (Nat × {rest : List Char // rest.length ≤ s1.length ∧
      (s1.head? = some '.' → rest.length < s1.length)}) :=
  if hdot : s1.head? = some '.' then
    let fd := s1.tail.takeWhile Char.isDigit
    if !pre && fd.isEmpty then
      .error ("time: invalid duration " ++ goQuote orig)
    else
      match finishUnit orig v (natOfDigits fd) (10 ^ fd.length) (s1.tail.dropWhile Char.isDigit) with
      | .error e => .error e
      | .ok (n, ⟨r, hr⟩) =>
        .ok (n, ⟨r, by
          have h1 : r.length ≤ s1.tail.length :=
            le_trans hr (List.dropWhile_sublist Char.isDigit).length_le
          have h2 : s1.tail.length < s1.length := by
            cases s1 with
            | nil => simp at hdot
            | cons a b => simp
          exact ⟨le_of_lt (lt_of_le_of_lt h1 h2), fun _ => lt_of_le_of_lt h1 h2⟩⟩)
  else
    if !pre then .error ("time: invalid duration " ++ goQuote orig)
    else
      match finishUnit orig v 0 1 s1 with
      | .error e => .error e
      | .ok (n, ⟨r, hr⟩) => .ok (n, ⟨r, ⟨hr, fun hd => absurd hd hdot⟩⟩)

/-- One iteration of the loop body of Go `time.ParseDuration`: consumes one
`[digits][.digits]unit` segment from the front of `s` and returns its value
in nanoseconds together with the unconsumed rest, or the error the Go loop
body reports.  `orig` is the whole original input, used in error messages.
Go's `int64` overflow checks are not modelled (`Nat` does not overflow) and
the fractional contribution is computed with truncating natural division
instead of `float64`; the engine never observes the numeric value, only
whether parsing succeeds. -/
def parseSegment (orig : String) (s : List Char) :
    Except String (Nat × {rest : List Char // rest.length < s.length}) :=
  match s with
  | [] => .error ("time: invalid duration " ++ goQuote orig)
  | c :: rest =>
    if c.isDigit then
      match parseTail orig (natOfDigits (c :: rest.takeWhile Char.isDigit)) true
          (rest.dropWhile Char.isDigit) with
      | .error e => .error e
      | .ok (n, ⟨r, hr⟩) =>
        .ok (n, ⟨r, Nat.lt_of_le_of_lt
          (le_trans hr.1 (List.dropWhile_sublist Char.isDigit).length_le) (by simp)⟩)
    else if hdot : c = '.' then
      match parseTail orig 0 false (c :: rest) with
      | .error e => .error e
      | .ok (n, ⟨r, hr⟩) => .ok (n, ⟨r, hr.2 (by simp [hdot])⟩)
    else .error ("time: invalid duration " ++ goQuote orig)

/-- Driving loop of Go `time.ParseDuration`: accumulates segment values until
the input is exhausted. -/
def parseDurLoop (orig : String) (s : List Char) (d : Nat) : Except String Nat :=
  match s with
  | [] => .ok d
  | c :: rest =>
    match parseSegment orig (c :: rest) with
    | .error e => .error e
    | .ok (v, ⟨s3, h3⟩) => parseDurLoop orig s3 (d + v)
termination_by s.length
decreasing_by simpa using h3

/-- Go `time.ParseDuration`: sign handling, the `"0"` and empty-string
special cases, then the segment loop.  The magnitude in nanoseconds is
returned (the sign only negates the returned duration and the engine never
observes the value). -/
def goParseDuration (str : String) : Except String Nat :=
  let s0 := str.data
  let s1 := match s0 with
    | c :: rest => if c = '-' ∨ c = '+' then rest else s0
    | [] => s0
  if s1 = ['0'] then .ok 0
  else if s1 = [] then .error ("time: invalid duration " ++ goQuote str)
  else parseDurLoop str s1 0

/-- The Go constant `StatusPending` of type `StepStatus` (a string type). -/
def StatusPending : String := "pending"

/-- The Go constant `StatusRunning`. -/
def StatusRunning : String := "running"

/-- The Go constant `StatusCompleted`. -/
def StatusCompleted : String := "completed"

/-- The Go constant `StatusFailed`. -/
def StatusFailed : String := "failed"

/-- The Go constant `StatusSkipped`. -/
def StatusSkipped : String := "skipped"

/-- The `ErrorHandler` struct of the workflow package. -/
structure ErrorHandler where
  Action : String := ""
  Message : String := ""
deriving DecidableEq, Repr

/-- The `Step` struct of the workflow package.  Field defaults are the Go
zero values, so a literal only has to name the fields a test populates.
The Go field `Type` (of the string type `StepType`) is named `StepTy` here
because `Type` is reserved in Lean; no engine code reads it. -/
structure Step where
  ID : String := ""
  Name : String := ""
  StepTy : String := ""
  Action : String := ""
  With : GoMap := []
  Env : List (String × String) := []
  If : String := ""
  DependsOn : List String := []
  Timeout : String := ""
  Retries : Int := 0
  OnError : Option ErrorHandler := none
deriving DecidableEq, Repr

/-- The `Workflow` struct of the workflow package. -/
structure Workflow where
  Name : String := ""
  Version : String := ""
  Description : String := ""
  Env : List (String × String) := []
  Steps : List Step := []
  OnError : Option ErrorHandler := none
  Timeout : String := ""
deriving DecidableEq, Repr

/-- The `StepResult` struct.  `Output = none` models a Go `nil` map (the
field was never assigned); `Error = none` models a Go `nil` error.  The
wall-clock fields `StartTime`, `EndTime` and `Duration` are not modelled. -/
structure StepResult where
  StepID : String := ""
  Status : String := ""
  Output : Option GoMap := none
  Error : Option GoErr := none
deriving DecidableEq, Repr

/-- The `WorkflowResult` struct, without its wall-clock fields. -/
structure WorkflowResult where
  WorkflowName : String := ""
  Status : String := ""
  Steps : List StepResult := []
  Error : Option GoErr := none
deriving DecidableEq, Repr

/-- An entry of the engine's invocation trace: the action name that was
invoked and the input map it received. -/
abbrev Invocation := String × GoMap

/-- Invocation trace of one engine: the handler calls it has performed, in
order.  It models the otherwise hidden closure state of registered Go
handlers (see the header comment). -/
abbrev Trace := List Invocation

/-- Number of prior invocations of the action `name` in a trace. -/
def countCalls (name : String) (tr : Trace) : Nat :=
  (tr.filter (fun p => p.1 == name)).length

/-- A Go `ActionHandler` closure.  The `Nat` argument is the number of prior
invocations of this handler by the same engine (its observable closure
state); a stateless handler ignores it.  The result models the Go pair
`(map[string]interface{}, error)`. -/
abbrev ActionHandler := Nat → GoMap → Except GoErr GoMap

/-- The `DefaultEngine` struct: its registered action handlers. -/
structure DefaultEngine where
  actions : List (String × ActionHandler)

/-- `NewEngine`: an engine with an empty action map. -/
def NewEngine : DefaultEngine := ⟨[]⟩

/-- `DefaultEngine.RegisterAction`: `e.actions[name] = handler`. -/
def DefaultEngine.RegisterAction (e : DefaultEngine) (name : String)
    (handler : ActionHandler) : DefaultEngine :=
  ⟨goMapSet name handler e.actions⟩

/-- The input-merge block of `DefaultEngine.ExecuteStep`:
`allInputs := make(...); for k, v := range inputs {...}; for k, v := range
step.With {...}`.  The result is order-independent across Go's unspecified
map iteration order because the two source maps have unique keys and the
second loop overrides the first. -/
def mergeInputs (inputs withM : GoMap) : GoMap :=
  goMapSetAll (goMapSetAll [] inputs) withM

/-- The part of `DefaultEngine.ExecuteStep` after the timeout check: merge
inputs, resolve the action, invoke the handler.  Returns the `StepResult`,
the returned Go error, and the handler invocations performed (one entry if
the handler ran, none otherwise). -/
def DefaultEngine.execAction (e : DefaultEngine) (step : Step) (inputs : GoMap)
    (tr : Trace) : StepResult × Option GoErr × Trace :=
  let allInputs := mergeInputs inputs step.With
  match goMapGet step.Action e.actions with
  | none =>
    let err := "unknown action: " ++ step.Action
    ({ StepID := step.ID, Status := StatusFailed, Error := some err }, some err, [])
  | some handler =>
    match handler (countCalls step.Action tr) allInputs with
    | .error msg =>
      ({ StepID := step.ID, Status := StatusFailed, Error := some msg }, some msg,
        [(step.Action, allInputs)])
    | .ok out =>
      ({ StepID := step.ID, Status := StatusCompleted, Output := some out }, none,
        [(step.Action, allInputs)])

/-- `DefaultEngine.ExecuteStep`: validate the step timeout (the deadline a
valid timeout installs on the context is not observable here), then run the
action.  `tr` is the engine's invocation trace so far; the third component
of the result is the list of handler invocations this call performed. -/
def DefaultEngine.ExecuteStep (e : DefaultEngine) (step : Step) (inputs : GoMap)
    (tr : Trace) : StepResult × Option GoErr × Trace :=
  if step.Timeout = "" then e.execAction step inputs tr
  else
    match goParseDuration step.Timeout with
    | .error msg =>
      let err := "invalid timeout: " ++ msg
      ({ StepID := step.ID, Status := StatusFailed, Error := some err }, some err, [])
    | .ok _ => e.execAction step inputs tr

/-- The step loop of `DefaultEngine.Execute`: run the steps in declaration
order with `nil` inputs, collecting every produced `StepResult`; stop right
after the first step whose `ExecuteStep` returns an error.  Returns the
collected results, the error of the failing step (if any), and the handler
invocations performed. -/
def runSteps (e : DefaultEngine) (steps : List Step) (tr : Trace) :
    List StepResult × Option GoErr × Trace :=
  match steps with
  | [] => ([], none, [])
  | s :: rest =>
    let r := e.ExecuteStep s [] tr
    match r.2.1 with
    | some err => ([r.1], some err, r.2.2)
    | none =>
      let res2 := runSteps e rest (tr ++ r.2.2)
      (r.1 :: res2.1, res2.2.1, r.2.2 ++ res2.2.2)

/-- Shared body of `DefaultEngine.Execute` after the timeout check: the step
loop followed by the final status assignment (`StatusFailed` with the step's
error when the loop stopped on an error, `StatusCompleted` otherwise). -/
def DefaultEngine.runBody (e : DefaultEngine) (w : Workflow) (tr : Trace) :
    Option WorkflowResult × Option GoErr × Trace :=
  let r := runSteps e w.Steps tr
  match r.2.1 with
  | some msg =>
    (some { WorkflowName := w.Name, Status := StatusFailed, Steps := r.1
            Error := some msg }, some msg, r.2.2)
  | none =>
    (some { WorkflowName := w.Name, Status := StatusCompleted, Steps := r.1 },
      none, r.2.2)

/-- `DefaultEngine.Execute`: validate the workflow timeout (returning a `nil`
result and an error if it does not parse), then run all steps sequentially.
The first component models the returned `*WorkflowResult` (`none` = `nil`
pointer), the second the returned Go error. -/
def DefaultEngine.Execute (e : DefaultEngine) (w : Workflow) (tr : Trace) :
    Option WorkflowResult × Option GoErr × Trace :=
  if w.Timeout = "" then e.runBody w tr
  else
    match goParseDuration w.Timeout with
    | .error msg => (none, some ("invalid timeout: " ++ msg), [])
    | .ok _ => e.runBody w tr

/-- An engine whose registered handlers are all deterministic: their result
depends only on the input map, not on how often they ran before (the
"deterministic stub actions" of the spec's idempotence property). -/
def DetRegistry (e : DefaultEngine) : Prop :=
  ∀ (name : String) (hd : ActionHandler), goMapGet name e.actions = some hd →
    ∀ (n n' : Nat) (i : GoMap), hd n i = hd n' i

/-- An engine with no registered actions. -/
def emptyEngine : DefaultEngine := NewEngine

/-- An engine with one deterministic action `noop`. -/
def noopEngine : DefaultEngine :=
  NewEngine.RegisterAction "noop" (fun _ _ => .ok [("done", .vBool true)])

/-- An engine whose `flaky` handler fails on its first two invocations and
succeeds from the third on ("fails twice then succeeds"). -/
def flakyEngine : DefaultEngine :=
  NewEngine.RegisterAction "flaky"
    (fun n _ => if n < 2 then .error "transient failure" else .ok [("ok", .vBool true)])

/-- A workflow whose (ignored) timeout string does not parse. -/
def badTimeoutWorkflow : Workflow :=
  { Name := "w", Timeout := "bogus",
    Steps := [{ ID := "s1", Name := "S1", Action := "noop" }] }

/-- A workflow with one step bound to an unregistered action. -/
def failStepWorkflow : Workflow :=
  { Name := "w", Steps := [{ ID := "s1", Name := "S1", Action := "nope" }] }

/-- Two steps with mutually cyclic `depends_on` sets. -/
def cycleWorkflow : Workflow :=
  { Name := "w", Steps := [
      { ID := "a", Name := "A", Action := "noop", DependsOn := ["b"] },
      { ID := "b", Name := "B", Action := "noop", DependsOn := ["a"] }] }

/-- A step whose `if` condition is the false literal. -/
def condStep : Step :=
  { ID := "c", Name := "C", Action := "noop", If := "false" }

/-- A step bound to the flaky action with `retries: 2`. -/
def flakyStep : Step :=
  { ID := "f", Name := "F", Action := "flaky", Retries := 2 }

/-- A step with an unparsable timeout and an unregistered action. -/
def badTimeoutStep : Step :=
  { ID := "t", Name := "T", Action := "nope", Timeout := "bogus" }

/-- A workflow of two steps both bound to an unregistered action. -/
def twoFailWorkflow : Workflow :=
  { Name := "w", Steps := [
      { ID := "s1", Name := "S1", Action := "nope" },
      { ID := "s2", Name := "S2", Action := "nope" }] }

/-- A workflow of two independent `noop` steps. -/
def twoStepWorkflow : Workflow :=
  { Name := "test", Steps := [
      { ID := "s1", Name := "Step 1", Action := "noop" },
      { ID := "s2", Name := "Step 2", Action := "noop" }] }

/-- An engine with the `echo` action of the repository's engine test. -/
def echoEngine : DefaultEngine :=
  NewEngine.RegisterAction "echo"
    (fun _ inputs => .ok [("echo", (goMapGet "message" inputs).getD .vNull)])

/-- A step that overrides the caller-supplied `message` input via `with`. -/
def echoStep : Step :=
  { ID := "e", Name := "E", Action := "echo", With := [("message", .vStr "hello")] }

/-! Helper lemmas about the association-list model of Go maps. -/

theorem goMapGet_goMapSet {α : Type} (k k' : String) (v : α) (m : List (String × α)) :
    goMapGet k (goMapSet k' v m) = if k' = k then some v else goMapGet k m := by
  induction m with
  | nil => simp [goMapGet, goMapSet]
  | cons p rest ih =>
    by_cases h1 : p.1 = k'
    · simp only [goMapSet, h1, if_pos rfl, goMapGet]
      by_cases h2 : k' = k <;> simp [h2]
    · simp only [goMapSet, if_neg h1, goMapGet]
      by_cases h2 : p.1 = k
      · have : ¬k' = k := fun hk => h1 (by rw [h2, hk])
        simp [h2, this]
      · simp [h2, ih]

theorem goMapGet_eq_none {α : Type} (k : String) (l : List (String × α))
    (h : k ∉ l.map Prod.fst) : goMapGet k l = none := by
  induction l with
  | nil => rfl
  | cons p rest ih =>
    simp only [List.map_cons, List.mem_cons] at h
    push_neg at h
    simp only [goMapGet]
    rw [if_neg (fun hp => h.1 hp.symm)]
    exact ih h.2

theorem goMapGet_goMapSetAll {α : Type} (k : String) (l : List (String × α)) :
    ∀ (m : List (String × α)), (l.map Prod.fst).Nodup →
      goMapGet k (goMapSetAll m l) = (goMapGet k l).or (goMapGet k m) := by
  induction l with
  | nil => intro m _; simp [goMapSetAll, goMapGet, Option.or]
  | cons p rest ih =>
    intro m hnd
    simp only [List.map_cons, List.nodup_cons] at hnd
    have step : goMapSetAll m (p :: rest) = goMapSetAll (goMapSet p.1 p.2 m) rest := rfl
    rw [step, ih _ hnd.2, goMapGet_goMapSet]
    by_cases hk : p.1 = k
    · have : goMapGet k rest = none :=
        goMapGet_eq_none k rest (by rw [← hk]; exact hnd.1)
      simp [goMapGet, hk, this, Option.or]
    · simp [goMapGet, hk, Ne.symm hk]

theorem goMapGet_mergeInputs (k : String) (inputs withM : GoMap)
    (hw : (withM.map Prod.fst).Nodup) (hi : (inputs.map Prod.fst).Nodup) :
    goMapGet k (mergeInputs inputs withM) = (goMapGet k withM).or (goMapGet k inputs) := by
  unfold mergeInputs
  rw [goMapGet_goMapSetAll k withM _ hw, goMapGet_goMapSetAll k inputs _ hi]
  cases goMapGet k withM <;> cases goMapGet k inputs <;> simp [goMapGet, Option.or]

/-! Helper lemmas about single-step execution. -/

theorem execAction_fields (e : DefaultEngine) (s : Step) (i : GoMap) (tr : Trace) :
    (e.execAction s i tr).1.StepID = s.ID
    ∧ ((e.execAction s i tr).1.Status = StatusCompleted
        ∨ (e.execAction s i tr).1.Status = StatusFailed)
    ∧ (e.execAction s i tr).1.Error = (e.execAction s i tr).2.1
    ∧ ((e.execAction s i tr).2.1 ≠ none ↔ (e.execAction s i tr).1.Status = StatusFailed)
    ∧ ((e.execAction s i tr).1.Status ≠ StatusCompleted → (e.execAction s i tr).1.Output = none)
    ∧ (e.execAction s i tr).2.2.length ≤ 1 := by
  unfold DefaultEngine.execAction
  cases hg : goMapGet s.Action e.actions with
  | none => simp [hg, StatusCompleted, StatusFailed]
  | some hd =>
    cases hx : hd (countCalls s.Action tr) (mergeInputs i s.With) with
    | error msg => simp [hg, hx, StatusCompleted, StatusFailed]
    | ok out => simp [hg, hx, StatusCompleted, StatusFailed]

theorem ExecuteStep_fields (e : DefaultEngine) (s : Step) (i : GoMap) (tr : Trace) :
    (e.ExecuteStep s i tr).1.StepID = s.ID
    ∧ ((e.ExecuteStep s i tr).1.Status = StatusCompleted
        ∨ (e.ExecuteStep s i tr).1.Status = StatusFailed)
    ∧ (e.ExecuteStep s i tr).1.Error = (e.ExecuteStep s i tr).2.1
    ∧ ((e.ExecuteStep s i tr).2.1 ≠ none ↔ (e.ExecuteStep s i tr).1.Status = StatusFailed)
    ∧ ((e.ExecuteStep s i tr).1.Status ≠ StatusCompleted → (e.ExecuteStep s i tr).1.Output = none)
    ∧ (e.ExecuteStep s i tr).2.2.length ≤ 1 := by
  unfold DefaultEngine.ExecuteStep
  by_cases ht : s.Timeout = ""
  · simpa [ht] using execAction_fields e s i tr
  · rw [if_neg ht]
    cases goParseDuration s.Timeout with
    | error msg => simp [StatusCompleted, StatusFailed]
    | ok d => exact execAction_fields e s i tr

/-! Helper lemmas about the step loop of `Execute`. -/

theorem runSteps_fields (e : DefaultEngine) :
    ∀ (steps : List Step) (tr : Trace),
      ((runSteps e steps tr).1.map (fun r => r.StepID) =
        (steps.map (fun s => s.ID)).take (runSteps e steps tr).1.length)
      ∧ ((runSteps e steps tr).2.1 = none → (runSteps e steps tr).1.length = steps.length)
      ∧ ((runSteps e steps tr).2.1 ≠ none →
          ∃ sr, (runSteps e steps tr).1.getLast? = some sr ∧ sr.Status = StatusFailed)
      ∧ (∀ sr ∈ (runSteps e steps tr).1,
          (sr.Status = StatusFailed ↔ sr.Error ≠ none)
          ∧ (sr.Status = StatusCompleted ∨ sr.Status = StatusFailed)) := by
  intro steps
  induction steps with
  | nil => intro tr; simp [runSteps]
  | cons s rest ih =>
    intro tr
    obtain ⟨hid, hst, herr, hiff, hout, hlen⟩ := ExecuteStep_fields e s [] tr
    simp only [runSteps]
    cases hserr : (e.ExecuteStep s [] tr).2.1 with
    | some err =>
      rw [hserr] at hiff
      simp only [hserr]
      refine ⟨by simp [hid], by simp, ?_, ?_⟩
      · intro _
        exact ⟨(e.ExecuteStep s [] tr).1, by simp, hiff.mp (by simp)⟩
      · intro sr hsr
        simp only [List.mem_singleton] at hsr
        subst hsr
        refine ⟨?_, hst⟩
        rw [herr, hserr]
        constructor
        · intro _; simp
        · intro _; exact hiff.mp (by simp)
    | none =>
      rw [hserr] at hiff
      simp only [hserr]
      obtain ⟨ih1, ih2, ih3, ih4⟩ := ih (tr ++ (e.ExecuteStep s [] tr).2.2)
      have hnotfail : (e.ExecuteStep s [] tr).1.Status ≠ StatusFailed := by
        intro hf
        exact (hiff.mpr hf) rfl
      refine ⟨?_, ?_, ?_, ?_⟩
      · simp only [List.map_cons, List.length_cons, List.take_succ_cons]
        rw [hid, ih1]
      · intro h
        simp only [List.length_cons]
        rw [ih2 h]
      · intro h
        obtain ⟨sr, hlast, hfail⟩ := ih3 h
        refine ⟨sr, ?_, hfail⟩
        cases hl : (runSteps e rest (tr ++ (e.ExecuteStep s [] tr).2.2)).1 with
        | nil => rw [hl] at hlast; simp at hlast
        | cons b l' =>
          rw [hl] at hlast
          rw [List.getLast?_cons_cons, hlast]
      · intro sr hsr
        rcases List.mem_cons.mp hsr with h1 | h2
        · subst h1
          refine ⟨?_, hst⟩
          constructor
          · intro hf; exact absurd hf hnotfail
          · intro hE
            rw [herr, hserr] at hE
            exact absurd rfl hE
        · exact ih4 sr h2

/-! Helper lemmas: with deterministic handlers, execution does not depend on
the engine's prior invocation trace. -/

theorem execAction_trace_indep (e : DefaultEngine) (hdet : DetRegistry e) (s : Step)
    (i : GoMap) (tr tr' : Trace) : e.execAction s i tr = e.execAction s i tr' := by
  unfold DefaultEngine.execAction
  cases hg : goMapGet s.Action e.actions with
  | none => rfl
  | some hd =>
    simp only [hg]
    rw [hdet s.Action hd hg (countCalls s.Action tr) (countCalls s.Action tr')
      (mergeInputs i s.With)]

theorem ExecuteStep_trace_indep (e : DefaultEngine) (hdet : DetRegistry e) (s : Step)
    (i : GoMap) (tr tr' : Trace) : e.ExecuteStep s i tr = e.ExecuteStep s i tr' := by
  unfold DefaultEngine.ExecuteStep
  by_cases ht : s.Timeout = ""
  · simp only [ht, if_pos rfl]
    exact execAction_trace_indep e hdet s i tr tr'
  · rw [if_neg ht, if_neg ht]
    cases goParseDuration s.Timeout with
    | error msg => rfl
    | ok d => exact execAction_trace_indep e hdet s i tr tr'

theorem runSteps_trace_indep (e : DefaultEngine) (hdet : DetRegistry e) :
    ∀ (steps : List Step) (tr tr' : Trace),
      runSteps e steps tr = runSteps e steps tr' := by
  intro steps
  induction steps with
  | nil => intro tr tr'; rfl
  | cons s rest ih =>
    intro tr tr'
    simp only [runSteps]
    rw [ExecuteStep_trace_indep e hdet s [] tr tr',
      ih (tr ++ (e.ExecuteStep s [] tr').2.2) (tr' ++ (e.ExecuteStep s [] tr').2.2)]

/-! Helper lemma: the engine never reads the `depends_on` field. -/

theorem runSteps_dependsOn (e : DefaultEngine) (f : Step → List String) :
    ∀ (steps : List Step) (tr : Trace),
      runSteps e (steps.map (fun s => { s with DependsOn := f s })) tr =
        runSteps e steps tr := by
  intro steps
  induction steps with
  | nil => intro tr; rfl
  | cons s rest ih =>
    intro tr
    simp only [List.map_cons, runSteps]
    have h1 : e.ExecuteStep { s with DependsOn := f s } [] tr = e.ExecuteStep s [] tr := rfl
    rw [h1, ih]

/-! Helper lemmas: concrete parse failure, and the shape of `Execute`. -/

theorem goParseDuration_bogus :
    goParseDuration "bogus" = .error "time: invalid duration \"bogus\"" := by
  rw [show goParseDuration "bogus" = parseDurLoop "bogus" "bogus".data 0 from rfl]
  rw [parseDurLoop.eq_def]
  rfl

theorem runBody_result (e : DefaultEngine) (w : Workflow) (tr : Trace) :
    ∃ r, (e.runBody w tr).1 = some r
      ∧ r.Steps = (runSteps e w.Steps tr).1
      ∧ r.WorkflowName = w.Name
      ∧ (e.runBody w tr).2.1 = (runSteps e w.Steps tr).2.1
      ∧ (r.Status = StatusFailed ↔ (runSteps e w.Steps tr).2.1 ≠ none)
      ∧ (r.Status = StatusCompleted ∨ r.Status = StatusFailed)
      ∧ r.Error = (runSteps e w.Steps tr).2.1 := by
  simp only [DefaultEngine.runBody]
  cases hx : (runSteps e w.Steps tr).2.1 with
  | some msg =>
    refine ⟨_, rfl, rfl, rfl, rfl, ?_, Or.inr rfl, rfl⟩
    simp
  | none =>
    refine ⟨_, rfl, rfl, rfl, rfl, ?_, Or.inl rfl, rfl⟩
    simp [StatusCompleted, StatusFailed]

theorem Execute_some (e : DefaultEngine) (w : Workflow) (tr : Trace) (r : WorkflowResult)
    (h : (e.Execute w tr).1 = some r) :
    (e.runBody w tr).1 = some r ∧ (e.Execute w tr).2.1 = (e.runBody w tr).2.1 := by
  unfold DefaultEngine.Execute at h ⊢
  by_cases ht : w.Timeout = ""
  · rw [if_pos ht] at h ⊢
    exact ⟨h, rfl⟩
  · rw [if_neg ht] at h ⊢
    cases hp : goParseDuration w.Timeout with
    | error msg =>
      rw [hp] at h
      exact Option.noConfusion h
    | ok d =>
      rw [hp] at h
      exact ⟨h, rfl⟩

theorem execAction_delta (e : DefaultEngine) (s : Step) (i : GoMap) (tr : Trace) :
    (e.execAction s i tr).2.2 = []
      ∨ (e.execAction s i tr).2.2 = [(s.Action, mergeInputs i s.With)] := by
  unfold DefaultEngine.execAction
  cases hg : goMapGet s.Action e.actions with
  | none => simp [hg]
  | some hd =>
    cases hx : hd (countCalls s.Action tr) (mergeInputs i s.With) with
    | error msg => simp [hg, hx]
    | ok out => simp [hg, hx]

theorem ExecuteStep_delta (e : DefaultEngine) (s : Step) (i : GoMap) (tr : Trace) :
    (e.ExecuteStep s i tr).2.2 = []
      ∨ (e.ExecuteStep s i tr).2.2 = [(s.Action, mergeInputs i s.With)] := by
  unfold DefaultEngine.ExecuteStep
  by_cases ht : s.Timeout = ""
  · simpa [ht] using execAction_delta e s i tr
  · rw [if_neg ht]
    cases goParseDuration s.Timeout with
    | error msg => simp
    | ok d => exact execAction_delta e s i tr

/-! The claims. -/

/-- C10: for every step, inputs and engine state, `ExecuteStep` returns a
StepResult whose `StepID` equals the step's `ID` and whose status is
Completed or Failed; the returned error is non-nil exactly when the status
is Failed; and the output field is only set when the status is Completed.
(The Go method always returns a non-nil `*StepResult`; the embedding
returns the struct itself, so non-nilness is inherent.) -/
theorem claim10_executeStep_contract (e : DefaultEngine) (s : Step) (i : GoMap)
    (tr : Trace) :
    (e.ExecuteStep s i tr).1.StepID = s.ID
    ∧ ((e.ExecuteStep s i tr).1.Status = StatusCompleted
        ∨ (e.ExecuteStep s i tr).1.Status = StatusFailed)
    ∧ ((e.ExecuteStep s i tr).2.1 ≠ none ↔ (e.ExecuteStep s i tr).1.Status = StatusFailed)
    ∧ ((e.ExecuteStep s i tr).1.Status ≠ StatusCompleted →
        (e.ExecuteStep s i tr).1.Output = none) :=
  ⟨(ExecuteStep_fields e s i tr).1, (ExecuteStep_fields e s i tr).2.1,
   (ExecuteStep_fields e s i tr).2.2.2.1, (ExecuteStep_fields e s i tr).2.2.2.2.1⟩

/-- C3, counterexample: a step whose `if` condition is the literal `false`
is not Skipped — the engine executes it anyway (status Completed, handler
invoked once). -/
theorem claim3_counterexample :
    (noopEngine.ExecuteStep condStep [] []).1.Status = StatusCompleted
    ∧ (noopEngine.ExecuteStep condStep [] []).2.2.length = 1 := by decide

/-- C3, amended: the engine never reads the `if` field — `ExecuteStep` is
unchanged under any replacement of it, and no step result is ever Skipped
(statuses are only Completed or Failed). -/
theorem claim3_amended (e : DefaultEngine) (s : Step) (c : String) (i : GoMap)
    (tr : Trace) :
    e.ExecuteStep { s with If := c } i tr = e.ExecuteStep s i tr
    ∧ (e.ExecuteStep s i tr).1.Status ≠ StatusSkipped := by
  refine ⟨rfl, ?_⟩
  rcases (ExecuteStep_fields e s i tr).2.1 with h | h <;> rw [h] <;> decide

/-- C4, counterexample: with `retries: 2` and a handler that fails twice
then succeeds, the step ends Failed after a single invocation (there is no
retry logic, and `StepResult` has no attempt counter at all). -/
theorem claim4_counterexample :
    (flakyEngine.ExecuteStep flakyStep [] []).1.Status = StatusFailed
    ∧ (flakyEngine.ExecuteStep flakyStep [] []).2.2.length = 1 := by decide

/-- C4, amended: the engine never reads the `retries` field — `ExecuteStep`
is unchanged under any replacement of it — and invokes the action handler at
most once per step. -/
theorem claim4_amended (e : DefaultEngine) (s : Step) (n : Int) (i : GoMap)
    (tr : Trace) :
    e.ExecuteStep { s with Retries := n } i tr = e.ExecuteStep s i tr
    ∧ (e.ExecuteStep s i tr).2.2.length ≤ 1 :=
  ⟨rfl, (ExecuteStep_fields e s i tr).2.2.2.2.2⟩

/-- C2, counterexample: a workflow whose two steps depend cyclically on each
other does not fail with a cyclic-dependency error — `Execute` returns no
error, reports the workflow Completed, and invokes both action handlers. -/
theorem claim2_counterexample :
    (noopEngine.Execute cycleWorkflow []).2.1 = none
    ∧ (noopEngine.Execute cycleWorkflow []).2.2.length = 2
    ∧ (noopEngine.Execute cycleWorkflow []).1.map (fun r => r.Status)
        = some StatusCompleted := by decide

/-- C2, amended: the engine performs no dependency analysis at all — the
result of `Execute` (including its invocation trace) is unchanged under any
replacement of the steps' `depends_on` sets, so a cycle is neither detected
nor does it prevent the steps from running in declaration order. -/
theorem claim2_amended (e : DefaultEngine) (w : Workflow) (tr : Trace)
    (f : Step → List String) :
    e.Execute { w with Steps := w.Steps.map (fun s => { s with DependsOn := f s }) } tr
      = e.Execute w tr := by
  obtain ⟨name, ver, desc, env, steps, onerr, tmo⟩ := w
  simp only [DefaultEngine.Execute, DefaultEngine.runBody]
  rw [runSteps_dependsOn]

/-- C5, counterexample: a step with an unparsable timeout string and an
unresolvable action fails with the invalid-timeout error, not with the
unknown-action error, because the timeout is checked before the action is
resolved; the handler is still never invoked. -/
theorem claim5_counterexample :
    (emptyEngine.ExecuteStep badTimeoutStep [] []).1.Status = StatusFailed
    ∧ (emptyEngine.ExecuteStep badTimeoutStep [] []).1.Error =
        some "invalid timeout: time: invalid duration \"bogus\""
    ∧ (emptyEngine.ExecuteStep badTimeoutStep [] []).1.Error ≠
        some ("unknown action: " ++ badTimeoutStep.Action)
    ∧ (emptyEngine.ExecuteStep badTimeoutStep [] []).2.2 = [] := by
  have h : emptyEngine.ExecuteStep badTimeoutStep [] [] =
      ({ StepID := "t", Status := StatusFailed,
         Error := some "invalid timeout: time: invalid duration \"bogus\"" },
       some "invalid timeout: time: invalid duration \"bogus\"", []) := by
    unfold DefaultEngine.ExecuteStep
    rw [if_neg (by decide : ¬(badTimeoutStep.Timeout = ""))]
    rw [show goParseDuration badTimeoutStep.Timeout =
      .error "time: invalid duration \"bogus\"" from goParseDuration_bogus]
    rfl
  rw [h]
  exact ⟨rfl, rfl, by decide, rfl⟩

/-- C5, amended: a step whose action does not resolve always fails with
zero handler invocations; if additionally its timeout is absent or valid,
the failure carries exactly the unknown-action error (with an invalid
timeout the invalid-timeout error is reported instead, before the action is
resolved). -/
theorem claim5_amended (e : DefaultEngine) (s : Step) (i : GoMap) (tr : Trace)
    (hA : goMapGet s.Action e.actions = none) :
    ((e.ExecuteStep s i tr).2.2 = [] ∧ (e.ExecuteStep s i tr).1.Status = StatusFailed)
    ∧ ((s.Timeout = "" ∨ (∃ d, goParseDuration s.Timeout = Except.ok d)) →
        (e.ExecuteStep s i tr).1.Error = some ("unknown action: " ++ s.Action)) := by
  unfold DefaultEngine.ExecuteStep DefaultEngine.execAction
  by_cases ht : s.Timeout = ""
  · rw [if_pos ht, hA]
    exact ⟨⟨rfl, rfl⟩, fun _ => rfl⟩
  · rw [if_neg ht]
    cases hp : goParseDuration s.Timeout with
    | error msg =>
      refine ⟨⟨rfl, rfl⟩, ?_⟩
      rintro (h1 | ⟨d, h2⟩)
      · exact absurd h1 ht
      · exact Except.noConfusion h2
    | ok d =>
      rw [hA]
      exact ⟨⟨rfl, rfl⟩, fun _ => rfl⟩

/-- C5, witness: a concrete step with empty timeout and unregistered action
`nope` fails with zero invocations and the unknown-action error. -/
theorem claim5_witness :
    ((emptyEngine.ExecuteStep { ID := "s", Name := "S", Action := "nope" } [] []).2.2 = []
      ∧ (emptyEngine.ExecuteStep { ID := "s", Name := "S", Action := "nope" } [] []).1.Status
          = StatusFailed)
    ∧ (emptyEngine.ExecuteStep { ID := "s", Name := "S", Action := "nope" } [] []).1.Error
        = some "unknown action: nope" :=
  ⟨(claim5_amended emptyEngine { ID := "s", Name := "S", Action := "nope" } [] [] rfl).1,
   (claim5_amended emptyEngine { ID := "s", Name := "S", Action := "nope" } [] [] rfl).2
     (Or.inl rfl)⟩

/-- C7: whenever `Execute` returns a WorkflowResult, its StepResult list
follows the declaration order of the workflow's step list (it is the
declaration-order prefix of the step ids). -/
theorem claim7_declaration_order (e : DefaultEngine) (w : Workflow) (tr : Trace)
    (r : WorkflowResult) (h : (e.Execute w tr).1 = some r) :
    r.Steps.map (fun sr => sr.StepID) = (w.Steps.map (fun s => s.ID)).take r.Steps.length := by
  obtain ⟨hbody, -⟩ := Execute_some e w tr r h
  obtain ⟨r', hr', hsteps, -, -, -, -, -⟩ := runBody_result e w tr
  rw [hbody] at hr'
  obtain rfl : r' = r := (Option.some.inj hr').symm
  rw [hsteps]
  exact (runSteps_fields e w.Steps tr).1

/-- C7, witness: the two-step workflow run on the `noop` engine reports its
steps in declaration order `s1, s2`. -/
theorem claim7_witness :
    ({ WorkflowName := "test", Status := StatusCompleted,
       Steps := [
        { StepID := "s1", Status := StatusCompleted,
          Output := some [("done", GoValue.vBool true)] },
        { StepID := "s2", Status := StatusCompleted,
          Output := some [("done", GoValue.vBool true)] }] } : WorkflowResult).Steps.map
        (fun sr => sr.StepID)
      = (twoStepWorkflow.Steps.map (fun s => s.ID)).take 2 :=
  claim7_declaration_order noopEngine twoStepWorkflow [] _ (by decide)

/-- C6, counterexample: with two steps whose shared action is unregistered,
the first step fails and `Execute` stops: the returned WorkflowResult
enumerates only one StepResult although the workflow has two steps, so
steps after a failed step have no terminal result. -/
theorem claim6_counterexample :
    (emptyEngine.Execute twoFailWorkflow []).1.map (fun r => r.Steps.length) = some 1
    ∧ twoFailWorkflow.Steps.length = 2 := by decide

/-- C6, amended: a returned WorkflowResult enumerates terminal StepResults
only for the declaration-order prefix of steps that actually ran: all steps
when no step failed, otherwise the prefix ending at the first failing step
(whose result is last and Failed); every enumerated Failed step carries its
error as the machine-readable cause (error present iff Failed), and no step
is ever Skipped. -/
theorem claim6_amended (e : DefaultEngine) (w : Workflow) (tr : Trace)
    (r : WorkflowResult) (h : (e.Execute w tr).1 = some r) :
    (r.Steps.map (fun sr => sr.StepID) = (w.Steps.map (fun s => s.ID)).take r.Steps.length)
    ∧ ((e.Execute w tr).2.1 = none → r.Steps.length = w.Steps.length)
    ∧ ((e.Execute w tr).2.1 ≠ none →
        ∃ sr, r.Steps.getLast? = some sr ∧ sr.Status = StatusFailed)
    ∧ (∀ sr ∈ r.Steps,
        (sr.Status = StatusFailed ↔ sr.Error ≠ none) ∧ sr.Status ≠ StatusSkipped) := by
  obtain ⟨hbody, herr⟩ := Execute_some e w tr r h
  obtain ⟨r', hr', hsteps, -, herr2, -, -, -⟩ := runBody_result e w tr
  rw [hbody] at hr'
  obtain rfl : r' = r := (Option.some.inj hr').symm
  obtain ⟨f1, f2, f3, f4⟩ := runSteps_fields e w.Steps tr
  rw [herr, herr2, hsteps]
  refine ⟨f1, f2, f3, ?_⟩
  intro sr hsr
  refine ⟨(f4 sr hsr).1, ?_⟩
  rcases (f4 sr hsr).2 with hc | hc <;> rw [hc] <;> decide

/-- C6, witness: on the two-step failing workflow, the enumerated prefix
ends with a Failed step result. -/
theorem claim6_witness :
    ∃ sr, ({ WorkflowName := "w"
             Status := StatusFailed
             Steps := [{ StepID := "s1"
                         Status := StatusFailed
                         Error := some "unknown action: nope" }]
             Error := some "unknown action: nope" } : WorkflowResult).Steps.getLast? = some sr
      ∧ sr.Status = StatusFailed :=
  (claim6_amended emptyEngine twoFailWorkflow [] _ (by decide)).2.2.1 (by decide)

/-- C1, counterexample: `Execute` returns a `nil` WorkflowResult when the
workflow-level timeout string does not parse, and it returns a non-nil
error for a plain runtime step failure (an unregistered action), which is
not a construction-time graph failure. -/
theorem claim1_counterexample :
    (noopEngine.Execute badTimeoutWorkflow []).1 = none
    ∧ (emptyEngine.Execute failStepWorkflow []).2.1 = some "unknown action: nope"
    ∧ (emptyEngine.Execute failStepWorkflow []).1 ≠ none := by
  refine ⟨?_, by decide, by decide⟩
  unfold DefaultEngine.Execute
  rw [if_neg (by decide : ¬(badTimeoutWorkflow.Timeout = ""))]
  rw [show goParseDuration badTimeoutWorkflow.Timeout =
    .error "time: invalid duration \"bogus\"" from goParseDuration_bogus]

/-- C1, amended: `Execute` returns a `nil` WorkflowResult exactly when the
workflow-level timeout string is present and unparsable (a
construction-time failure, which also yields a non-nil error); whenever a
WorkflowResult is returned, the returned error is non-nil exactly when the
workflow failed — including runtime step failures, which therefore also
surface as a non-nil error alongside the partial result. -/
theorem claim1_amended (e : DefaultEngine) (w : Workflow) (tr : Trace) :
    ((e.Execute w tr).1 = none ↔
      (w.Timeout ≠ "" ∧ ∃ msg, goParseDuration w.Timeout = Except.error msg))
    ∧ (∀ r, (e.Execute w tr).1 = some r →
        ((e.Execute w tr).2.1 ≠ none ↔ r.Status = StatusFailed))
    ∧ ((e.Execute w tr).1 = none → (e.Execute w tr).2.1 ≠ none) := by
  obtain ⟨r0, hr0, -, -, herr20, hiff0, -, -⟩ := runBody_result e w tr
  unfold DefaultEngine.Execute
  by_cases ht : w.Timeout = ""
  · rw [if_pos ht]
    refine ⟨?_, ?_, ?_⟩
    · rw [hr0]
      constructor
      · intro hc; exact absurd hc (by simp)
      · rintro ⟨hne, -⟩; exact absurd ht hne
    · intro r hr
      rw [hr0] at hr
      obtain rfl : r0 = r := Option.some.inj hr
      rw [herr20]
      exact hiff0.symm
    · intro hc; rw [hr0] at hc; exact absurd hc (by simp)
  · rw [if_neg ht]
    cases hp : goParseDuration w.Timeout with
    | error msg =>
      refine ⟨?_, ?_, ?_⟩
      · constructor
        · intro _; exact ⟨ht, msg, rfl⟩
        · intro _; rfl
      · intro r hr; exact Option.noConfusion hr
      · intro _; simp
    | ok d =>
      refine ⟨?_, ?_, ?_⟩
      · rw [hr0]
        constructor
        · intro hc; exact absurd hc (by simp)
        · rintro ⟨-, msg, hmsg⟩; exact Except.noConfusion hmsg
      · intro r hr
        rw [hr0] at hr
        obtain rfl : r0 = r := Option.some.inj hr
        rw [herr20]
        exact hiff0.symm
      · intro hc; rw [hr0] at hc; exact absurd hc (by simp)

/-- C1, witness: for the one-step workflow whose action is unregistered,
the returned error is non-nil and the returned WorkflowResult's status is
Failed. -/
theorem claim1_witness :
    (emptyEngine.Execute failStepWorkflow []).2.1 ≠ none ↔
      ({ WorkflowName := "w", Status := StatusFailed,
         Steps := [{ StepID := "s1", Status := StatusFailed,
                     Error := some "unknown action: nope" }],
         Error := some "unknown action: nope" } : WorkflowResult).Status = StatusFailed :=
  (claim1_amended emptyEngine failStepWorkflow []).2.1 _ (by decide)

/-- C8: every handler invocation performed by `ExecuteStep` receives the
caller-supplied inputs merged with the step's `with` map, where for any key
present in both the `with` value wins. -/
theorem claim8_with_overrides (e : DefaultEngine) (s : Step) (inputs : GoMap)
    (tr : Trace) (k : String)
    (hw : (s.With.map Prod.fst).Nodup) (hi : (inputs.map Prod.fst).Nodup) :
    ∀ inv ∈ (e.ExecuteStep s inputs tr).2.2,
      inv.1 = s.Action
      ∧ goMapGet k inv.2 = (goMapGet k s.With).or (goMapGet k inputs) := by
  intro inv hinv
  rcases ExecuteStep_delta e s inputs tr with hd | hd
  · rw [hd] at hinv
    exact absurd hinv (List.not_mem_nil inv)
  · rw [hd] at hinv
    rw [List.mem_singleton] at hinv
    subst hinv
    exact ⟨rfl, goMapGet_mergeInputs k inputs s.With hw hi⟩

/-- C8, witness: with caller input `message = "bye"` and step `with`
binding `message = "hello"`, the handler receives `message = "hello"`. -/
theorem claim8_witness :
    (("echo", [("message", GoValue.vStr "hello"), ("other", GoValue.vStr "x")]) : Invocation).1
        = echoStep.Action
    ∧ goMapGet "message" [("message", GoValue.vStr "hello"), ("other", GoValue.vStr "x")]
        = (goMapGet "message" echoStep.With).or
            (goMapGet "message" [("message", GoValue.vStr "bye"), ("other", GoValue.vStr "x")]) :=
  claim8_with_overrides echoEngine echoStep
    [("message", GoValue.vStr "bye"), ("other", GoValue.vStr "x")] [] "message"
    (by decide) (by decide)
    ("echo", [("message", GoValue.vStr "hello"), ("other", GoValue.vStr "x")]) (by decide)

/-- C9: with deterministic handlers, two runs of `Execute` on the same
Workflow value produce identical results — same statuses, outputs, error
and invocation records — whatever invocation history the engine carries
(the model has no timestamp fields, so the results are equal outright). -/
theorem claim9_idempotent (e : DefaultEngine) (hdet : DetRegistry e) (w : Workflow)
    (tr tr' : Trace) : e.Execute w tr = e.Execute w tr' := by
  have h := runSteps_trace_indep e hdet w.Steps tr tr'
  unfold DefaultEngine.Execute DefaultEngine.runBody
  rw [h]

/-- C9, witness: re-running the two-step `noop` workflow after a first run
(one that already recorded a `noop` invocation) gives the same result as a
fresh run. -/
theorem claim9_witness :
    noopEngine.Execute twoStepWorkflow [] = noopEngine.Execute twoStepWorkflow [("noop", [])] :=
  claim9_idempotent noopEngine
    (by
      intro name hd hget n n' i
      simp only [noopEngine, NewEngine, DefaultEngine.RegisterAction, goMapSet, goMapGet] at hget
      split at hget
      · cases hget; rfl
      · exact Option.noConfusion hget)
    twoStepWorkflow [] [("noop", [])]
